import Mathlib

/-!
Verification of the migration-guardian subsystem (hooks/migration_guardian).

The Python sources are shallowly embedded: dictionaries that carry optional
keys become structures with `Option` fields, Python truthiness of extracted
default values is modelled by `PyVal.truthy`, and the file-content argument of
the model detector is abstracted by the outcome of parsing it
(`Content := Option (List ModelDef)`, `none` standing for content on which
`ast.parse`/extraction raises, which `_parse_models` catches and turns into
an empty model list).
-/

namespace MigrationGuardian

/-- Python value as it appears in a change dict / field dict (`default` key,
etc.).  `PyVal.null` stands for Python `None`. -/
inductive PyVal where
  | null : PyVal
  | bool (b : Bool) : PyVal
  | int (n : Int) : PyVal
  | str (s : String) : PyVal
deriving Repr, DecidableEq

/-- Python truthiness of a `PyVal` (`bool(v)`). -/
def PyVal.truthy : PyVal → Bool
  | PyVal.null => false
  | PyVal.bool b => b
  | PyVal.int n => n != 0
  | PyVal.str s => s != ""

/-- Field dict produced by `ModelChangeDetector._extract_field_info`. -/
structure FieldDef where
  name : String
  ftype : String
  nullable : Bool := true
  primary_key : Bool := false
  unique : Bool := false
  foreign_key : Option String := none
  default : PyVal := PyVal.null
deriving Repr, DecidableEq

/-- Model dict produced by `ModelChangeDetector._extract_model_info`
(the `constraints` and `indexes` keys are initialised to `[]` and never
filled by the source, so they are omitted). -/
structure ModelDef where
  class_name : String
  table_name : String
  fields : List FieldDef
deriving Repr, DecidableEq

/-- A change dict.  Keys that are present only on some change types are
`Option`s (`none` = key absent); the access `change.get(nullable, True)`
is `c.nullable.getD true`, and `change.get(default)` is `c.default` with
`PyVal.null` for the absent key. -/
structure Change where
  ctype : String
  table : Option String := none
  model : Option String := none
  column : Option String := none
  column_type : Option String := none
  old_type : Option String := none
  new_type : Option String := none
  nullable : Option Bool := none
  default : PyVal := PyVal.null
  fields : List FieldDef := []
  risk : Option String := none
  warning : Option String := none
deriving Repr, DecidableEq

/-- The change-set dict with its module and changes keys. -/
structure ChangeSet where
  module : String
  changes : List Change
deriving Repr, DecidableEq

/-! ### Safety analyzer (analyzers/safety_analyzer.py) -/

/-- Numeric level of a risk string used by `SafetyAnalyzer._max_risk_level`;
`levels.get(x, 0)` semantics (unknown strings map to 0). -/
def risk_ord (s : String) : Nat :=
  if s = "MEDIUM" then 1 else if s = "HIGH" then 2 else 0

/-- Embeds `SafetyAnalyzer._max_risk_level`. -/
def max_risk_level (level1 level2 : String) : String :=
  if risk_ord level1 < risk_ord level2 then level2 else level1

/-- The fixed lossy pair set of `SafetyAnalyzer._is_lossy_conversion`, after
upper-casing and stripping a parenthesised size suffix. -/
def lossy_pairs : List (String × String) :=
  [("VARCHAR", "INTEGER"), ("TEXT", "VARCHAR"), ("BIGINT", "INTEGER"),
   ("NUMERIC", "INTEGER"), ("TIMESTAMP", "DATE"), ("DOUBLE", "FLOAT")]

/-- Python upper-casing of one character (ASCII, which covers every type
name the detector can extract from an identifier). -/
def ascii_upper (c : Char) : Char :=
  if 97 ≤ c.toNat ∧ c.toNat ≤ 122 then Char.ofNat (c.toNat - 32) else c

/-- Embeds the expression upper-casing the type name and splitting at the
first opening parenthesis, keeping the first segment. -/
def type_base (t : String) : String :=
  String.mk ((t.data.map ascii_upper).takeWhile (fun c => c ≠ '('))

/-- Embeds `SafetyAnalyzer._is_lossy_conversion`. -/
def is_lossy_conversion (old_type new_type : String) : Bool :=
  lossy_pairs.contains (type_base old_type, type_base new_type)

/-- The per-change risk dict built by `SafetyAnalyzer._analyze_change_risk`. -/
structure RiskAnalysis where
  change : Change
  risk_level : String
  warnings : List String
  recommendations : List String
deriving Repr, DecidableEq

/-- Embeds `SafetyAnalyzer._analyze_change_risk`.  Bracket accesses
(on old and new type keys) are modelled with `.getD ""`; detector-produced
changes of the matching type always carry these keys. -/
def analyze_change_risk (change : Change) : RiskAnalysis :=
  if change.ctype = "DROP_TABLE" then
    { change := change
      risk_level := "HIGH"
      warnings := ["Table " ++ change.table.getD "" ++ " will be permanently deleted"]
      recommendations := ["CREATE TABLE " ++ change.table.getD "" ++ "_backup AS SELECT * FROM " ++ change.table.getD "" ++ ";"] }
  else if change.ctype = "DROP_COLUMN" then
    { change := change
      risk_level := "HIGH"
      warnings := ["Column " ++ change.column.getD "" ++ " data will be permanently lost"]
      recommendations := ["Consider renaming to " ++ change.column.getD "" ++ "_deprecated instead"] }
  else if change.ctype = "ADD_COLUMN" then
    if ¬ change.nullable.getD true ∧ ¬ change.default.truthy then
      { change := change
        risk_level := "MEDIUM"
        warnings := ["Adding NOT NULL column without default value will fail if table has data"]
        recommendations := ["Add column as nullable first, update data, then add NOT NULL constraint"] }
    else
      { change := change, risk_level := "LOW", warnings := [], recommendations := [] }
  else if change.ctype = "ALTER_COLUMN_TYPE" then
    let base : RiskAnalysis :=
      { change := change
        risk_level := "MEDIUM"
        warnings := ["Type change from " ++ change.old_type.getD "" ++ " to " ++ change.new_type.getD "" ++ " may fail"]
        recommendations := ["Test type conversion on a data sample first"] }
    if is_lossy_conversion (change.old_type.getD "") (change.new_type.getD "") then
      { base with
        risk_level := "HIGH"
        warnings := base.warnings ++ ["Type conversion may result in data loss"] }
    else base
  else if change.ctype = "ALTER_COLUMN_NULLABLE" then
    if ¬ change.nullable.getD true then
      { change := change
        risk_level := "MEDIUM"
        warnings := ["Setting column to NOT NULL will fail if NULL values exist"]
        recommendations := ["UPDATE " ++ change.table.getD "" ++ " SET " ++ change.column.getD "" ++ " = <default> WHERE " ++ change.column.getD "" ++ " IS NULL;"] }
    else
      { change := change, risk_level := "LOW", warnings := [], recommendations := [] }
  else
    { change := change, risk_level := "LOW", warnings := [], recommendations := [] }

/-- One `data_impact` entry. -/
structure DataImpact where
  row_count : Nat
  data_size : Nat
  has_data : Bool
deriving Repr, DecidableEq

/-- The hard-coded mock `table_stats` of
`SafetyAnalyzer._estimate_data_impact` (rows, size_mb). -/
def table_stats : List (String × Nat × Nat) :=
  [("users", 10000, 50), ("files", 50000, 500), ("conversations", 25000, 200),
   ("agents", 100, 1), ("sessions", 100000, 300)]

/-- Embeds `SafetyAnalyzer._estimate_data_impact`: tables not in the mock map keep
the zero-initialised impact (row count 0, size 0, no data). -/
def estimate_data_impact (change : Change) : DataImpact :=
  let table := change.table.getD ""
  match table_stats.find? (fun p => p.1 = table) with
  | some p => { row_count := p.2.1, data_size := p.2.2, has_data := p.2.1 > 0 }
  | none => { row_count := 0, data_size := 0, has_data := false }

/-- Association-list upsert with Python dict-assignment semantics:
replace the value in place if the key exists, otherwise append. -/
def dict_set (d : List (String × DataImpact)) (k : String) (v : DataImpact) :
    List (String × DataImpact) :=
  match d with
  | [] => [(k, v)]
  | (k0, v0) :: rest =>
    if k0 = k then (k0, v) :: rest else (k0, v0) :: dict_set rest k v

/-- The safety report dict (`estimated_downtime` is carried as a rational to
model Python float arithmetic in `_estimate_downtime`; no verified claim
constrains it). -/
structure SafetyReport where
  risk_level : String := "LOW"
  risks : List RiskAnalysis := []
  warnings : List String := []
  recommendations : List String := []
  data_impact : List (String × DataImpact) := []
  requires_backup : Bool := false
  requires_staging : Bool := false
  estimated_downtime : Int := 0
deriving Repr, DecidableEq

/-- Safety thresholds (defaults of `SafetyAnalyzer.__init__`). -/
structure SafetyThresholds where
  max_affected_rows_auto : Nat := 1000
  require_backup_above_rows : Nat := 10000
  require_staged_migration_above : Nat := 100000
deriving Repr, DecidableEq

/-- Dependency-analysis result dict, restricted to the keys
`SafetyAnalyzer.analyze_changes` reads. -/
structure DepInfo where
  cross_module : Bool := false
  migration_order : List String := []
deriving Repr, DecidableEq

/-- Body of the per-change loop of `SafetyAnalyzer.analyze_changes`. -/
def analyze_one_change (report : SafetyReport) (change : Change) : SafetyReport :=
  let risk_analysis := analyze_change_risk change
  let report := { report with
    risk_level := max_risk_level report.risk_level risk_analysis.risk_level }
  let report :=
    if risk_analysis.risk_level ≠ "LOW" then
      { report with risks := report.risks ++ [risk_analysis] }
    else report
  let report := { report with
    warnings := report.warnings ++ risk_analysis.warnings
    recommendations := report.recommendations ++ risk_analysis.recommendations }
  match change.table with
  | some table =>
    { report with data_impact := dict_set report.data_impact table (estimate_data_impact change) }
  | none => report

/-- Embeds `SafetyAnalyzer._estimate_downtime` (Python float arithmetic modelled
over ℚ; the final `int(...)` is `Int.floor`, identical on the non-negative
values produced here). -/
def estimate_downtime (changes : List Change) (impacts : List (String × DataImpact)) : Int :=
  let rows : Change → ℚ := fun c =>
    ((impacts.find? (fun p => p.1 = c.table.getD "")).map (fun p => (p.2.row_count : ℚ))).getD 0
  let total : ℚ := changes.foldl (fun acc c =>
    if c.ctype = "CREATE_TABLE" then acc + 1
    else if c.ctype = "DROP_TABLE" then acc + 2
    else if c.ctype = "ADD_COLUMN" then acc + max 1 (rows c / 10000)
    else if c.ctype = "DROP_COLUMN" then acc + 5
    else if c.ctype = "ALTER_COLUMN_TYPE" then acc + max 5 (rows c / 5000)
    else if c.ctype = "CREATE_INDEX" then acc + max 10 (rows c / 1000)
    else acc) 0
  Int.floor total

/-- Embeds `SafetyAnalyzer.analyze_changes`.  Here `changes` is `Option ChangeSet`
(`none` models the empty dict `{}` the detector returns on some paths);
the falsy check on the changes dict and its changes key is the
early-return guard. -/
def analyze_changes (thresholds : SafetyThresholds) (changes : Option ChangeSet)
    (dependencies : DepInfo) : SafetyReport :=
  let report : SafetyReport := {}
  match changes with
  | none => report
  | some cs =>
    if cs.changes = [] then report
    else
      let report := cs.changes.foldl analyze_one_change report
      let report :=
        if dependencies.cross_module then
          { report with
            warnings := report.warnings ++
              ["Cross-module dependencies detected. Ensure proper migration order."]
            recommendations := report.recommendations ++
              ["Apply migrations in order: " ++ String.intercalate " \u2192 " dependencies.migration_order] }
        else report
      let total_affected_rows := (report.data_impact.map (fun p => p.2.row_count)).sum
      let report :=
        if total_affected_rows > thresholds.require_backup_above_rows then
          { report with
            requires_backup := true
            recommendations := report.recommendations ++
              ["Backup recommended: rows affected"] }
        else report
      let report :=
        if total_affected_rows > thresholds.require_staged_migration_above then
          { report with
            requires_staging := true
            recommendations := report.recommendations ++
              ["Consider staged migration due to large data volume"] }
        else report
      { report with estimated_downtime := estimate_downtime cs.changes report.data_impact }

/-! ### Model change detector (detectors/model_detector.py)

File text is abstracted by its parse outcome: `Content = some ms` when
`ast.parse` plus model extraction yields the model list `ms`, and
`Content = none` when parsing raises (the `except` branch of
`_parse_models`).  Parsing is a pure function of the text, so equal texts
have equal `Content`. -/

abbrev Content : Type := Option (List ModelDef)

/-- Embeds `ModelChangeDetector._parse_models`: the `except` branch returns `[]`. -/
def parse_models (c : Content) : List ModelDef :=
  match c with
  | some ms => ms
  | none => []

/-- Python dict keys in insertion order for a dict comprehension
`{m.key: m for m in ms}`: first occurrence fixes the position. -/
def py_keys (ks : List String) : List String :=
  ks.foldl (fun acc k => if k ∈ acc then acc else acc ++ [k]) []

/-- Value lookup in such a dict: the last entry with the key wins. -/
def py_get (ms : List ModelDef) (name : String) : Option ModelDef :=
  ms.reverse.find? (fun m => m.class_name = name)

def model_keys (ms : List ModelDef) : List String :=
  py_keys (ms.map (fun m => m.class_name))

/-- CREATE_TABLE change emitted by `_compare_models` for a new model. -/
def create_table_change (m : ModelDef) : Change :=
  { ctype := "CREATE_TABLE", table := some m.table_name,
    model := some m.class_name, fields := m.fields }

/-- DROP_TABLE change emitted by `_compare_models` for a removed model. -/
def drop_table_change (m : ModelDef) : Change :=
  { ctype := "DROP_TABLE", table := some m.table_name,
    model := some m.class_name, risk := some "HIGH" }

/-- ADD_COLUMN change built by `_compare_fields` for a new field
(including the NOT-NULL-without-truthy-default risk stamp). -/
def add_column_change (table_name : String) (field : FieldDef) : Change :=
  let base : Change :=
    { ctype := "ADD_COLUMN", table := some table_name, column := some field.name,
      column_type := some field.ftype, nullable := some field.nullable,
      default := field.default }
  if ¬ field.nullable ∧ ¬ field.default.truthy then
    { base with
      risk := some "MEDIUM"
      warning := some "Adding NOT NULL column without default value" }
  else base

/-- DROP_COLUMN change built by `_compare_fields` for a removed field. -/
def drop_column_change (table_name : String) (name : String) : Change :=
  { ctype := "DROP_COLUMN", table := some table_name, column := some name,
    risk := some "HIGH", warning := some "Data will be permanently lost" }

def field_keys (fs : List FieldDef) : List String :=
  py_keys (fs.map (fun f => f.name))

def field_get (fs : List FieldDef) (name : String) : Option FieldDef :=
  fs.reverse.find? (fun f => f.name = name)

/-- The per-name modification changes of `_compare_fields` (type change,
then nullable change). -/
def field_mod_changes (table_name : String) (old_field new_field : FieldDef) :
    List Change :=
  (if old_field.ftype ≠ new_field.ftype then
    [{ ctype := "ALTER_COLUMN_TYPE", table := some table_name,
       column := some new_field.name, old_type := some old_field.ftype,
       new_type := some new_field.ftype, risk := some "MEDIUM",
       warning := some "Type conversion may fail or lose precision" }]
  else []) ++
  (if old_field.nullable ≠ new_field.nullable then
    [{ ctype := "ALTER_COLUMN_NULLABLE", table := some table_name,
       column := some new_field.name, nullable := some new_field.nullable,
       risk := some (if new_field.nullable then "LOW" else "MEDIUM") }]
  else [])

/-- Embeds `ModelChangeDetector._compare_fields`.  The `set(old) & set(new)`
iteration (whose order Python leaves unspecified, and on which no verified
claim depends) is realised as the old-dict key order filtered to shared
names. -/
def compare_fields (old_model new_model : ModelDef) : List Change :=
  let table_name := old_model.table_name
  let old_names := field_keys old_model.fields
  let new_names := field_keys new_model.fields
  let adds := (new_names.filter (fun n => n ∉ old_names)).filterMap (fun n =>
    (field_get new_model.fields n).map (add_column_change table_name))
  let drops := (old_names.filter (fun n => n ∉ new_names)).map
    (drop_column_change table_name)
  let mods := (old_names.filter (fun n => n ∈ new_names)).flatMap (fun n =>
    match field_get old_model.fields n, field_get new_model.fields n with
    | some old_field, some new_field => field_mod_changes table_name old_field new_field
    | _, _ => [])
  adds ++ drops ++ mods

/-- Embeds `ModelChangeDetector._compare_constraints` (a stub returning `[]`). -/
def compare_constraints (_old_model _new_model : ModelDef) : List Change := []

/-- Embeds `ModelChangeDetector._compare_models`. -/
def compare_models (old_content new_content : Content) (module_name : String) :
    ChangeSet :=
  let old_models := parse_models old_content
  let new_models := parse_models new_content
  let old_names := model_keys old_models
  let new_names := model_keys new_models
  let created := (new_names.filter (fun n => n ∉ old_names)).filterMap (fun n =>
    (py_get new_models n).map create_table_change)
  let dropped := (old_names.filter (fun n => n ∉ new_names)).filterMap (fun n =>
    (py_get old_models n).map drop_table_change)
  let modified := (old_names.filter (fun n => n ∈ new_names)).flatMap (fun n =>
    match py_get old_models n, py_get new_models n with
    | some old_model, some new_model =>
      compare_fields old_model new_model ++ compare_constraints old_model new_model
    | _, _ => [])
  { module := module_name, changes := created ++ dropped ++ modified }

/-- Embeds `ModelChangeDetector._analyze_new_file`: the empty dict (here `none`) when no
models parse, otherwise one CREATE_TABLE per model. -/
def analyze_new_file (content : Content) (module_name : String) :
    Option ChangeSet :=
  let models := parse_models content
  if models = [] then none
  else some { module := module_name,
              changes := models.map create_table_change }

/-- Embeds `ModelChangeDetector.detect_changes`, with the per-file snapshot cache
made explicit: the first component is the returned change dict (`none` for
the empty dict `{}`), the second the updated cached content. -/
def detect_changes (cached : Option Content) (current : Content)
    (module_name : String) : Option ChangeSet × Content :=
  match cached with
  | none => (analyze_new_file current module_name, current)
  | some old_content => (some (compare_models old_content current module_name), current)

/-! ### Dependency detector (detectors/dependency_detector.py)

`DependencyDetector._build_dependency_graph` builds a dict
`module -> set(module)`; it is embedded as an association list whose
values are neighbour lists (sets realised as duplicate-free lists in
insertion order).  `_calculate_migration_order` is the recursive
depth-first visit; the recursion is embedded with a fuel argument that
`calculate_migration_order` instantiates with a bound large enough that it
is never exhausted (proved below). -/

/-- A dependency edge dict, restricted to the keys the graph builder reads. -/
structure DepEdge where
  from_module : String
  to_module : String
deriving Repr, DecidableEq

abbrev Graph : Type := List (String × List String)

def graph_keys (g : Graph) : List String := g.map (fun p => p.1)

/-- Neighbour lookup `graph.get(module, set())`. -/
def graph_nbrs (g : Graph) (m : String) : List String :=
  ((g.find? (fun p => p.1 = m)).map (fun p => p.2)).getD []

/-- One step of `_build_dependency_graph`: `graph[from].add(to)` plus
ensuring `to` is a key. -/
def add_edge (g : Graph) (e : DepEdge) : Graph :=
  let g1 :=
    if e.from_module ∈ graph_keys g then
      g.map (fun p =>
        if p.1 = e.from_module ∧ e.to_module ∉ p.2 then (p.1, p.2 ++ [e.to_module]) else p)
    else g ++ [(e.from_module, [e.to_module])]
  if e.to_module ∈ graph_keys g1 then g1 else g1 ++ [(e.to_module, [])]

/-- Embeds `DependencyDetector._build_dependency_graph`. -/
def build_dependency_graph (dependencies : List DepEdge) : Graph :=
  dependencies.foldl add_edge []

/-- All strings that can ever be marked visited by the DFS: the keys and
every neighbour. -/
def graph_nodes (g : Graph) : List String :=
  g.foldr (fun p acc => p.1 :: p.2 ++ acc) []

/-- DFS state: `visited` set and the accumulating `order` list. -/
structure DfsState where
  visited : List String
  order : List String
deriving Repr, DecidableEq

mutual
/-- The inner `visit` of `_calculate_migration_order`: mark the module,
visit its dependencies first, then append the module to the order.
`fuel` bounds the recursion depth; `calculate_migration_order` supplies a
provably sufficient amount. -/
def visit (g : Graph) (fuel : Nat) (s : DfsState) (m : String) : DfsState :=
  match fuel with
  | 0 => s
  | fuel + 1 =>
    if m ∈ s.visited then s
    else
      match g.find? (fun p => p.1 = m) with
      | none =>
        { visited := m :: s.visited, order := s.order ++ [m] }
      | some p =>
        let s1 := visit_deps g fuel { s with visited := m :: s.visited } p.2
        { s1 with order := s1.order ++ [m] }

/-- The `for dep in graph.get(module, set()): visit(dep)` loop. -/
def visit_deps (g : Graph) (fuel : Nat) (s : DfsState) (ms : List String) : DfsState :=
  match ms with
  | [] => s
  | n :: rest => visit_deps g fuel (visit g fuel s n) rest
end

/-- Embeds `DependencyDetector._calculate_migration_order`: run the top-level
`for module in graph: visit(module)` loop (the same iteration shape as the
dependency loop) from the empty state, with enough fuel that the embedded
recursion never bottoms out (`visit_fuel_enough` below). -/
def calculate_migration_order (g : Graph) : List String :=
  (visit_deps g ((graph_nodes g).length + 1) { visited := [], order := [] } (graph_keys g)).order

/-- Number of not-yet-visited nodes; the decreasing measure of the DFS. -/
def unvisited (g : Graph) (visited : List String) : Nat :=
  ((graph_nodes g).filter (fun x => decide (x ∉ visited))).length

/-- Relative DFS postcondition: the order grew by a duplicate-free block of
previously unvisited modules, and exactly that block was added to the
visited set. -/
def dfs_inv (s t : DfsState) : Prop :=
  ∃ δ : List String,
    t.order = s.order ++ δ ∧
    δ.Nodup ∧
    (∀ x ∈ δ, x ∉ s.visited) ∧
    (∀ x, x ∈ t.visited ↔ x ∈ s.visited ∨ x ∈ δ)


/-- Edge relation of a graph: `b` is among the stored dependencies of `a`. -/
def edge (g : Graph) (a b : String) : Prop := b ∈ graph_nbrs g a

/-- Non-empty dependency paths. -/
inductive Reach (g : Graph) : String → String → Prop where
  | single {a b : String} : edge g a b → Reach g a b
  | cons {a b c : String} : edge g a b → Reach g b c → Reach g a c

/-- Acyclicity: no module reaches itself through dependency edges. -/
def Acyclic (g : Graph) : Prop := ∀ m : String, ¬ Reach g m m
/-- The topological-order property: every stored dependency of a module in
the order occurs strictly earlier in the order. -/
def good_order (g : Graph) (o : List String) : Prop :=
  ∀ o1 a o2, o = o1 ++ a :: o2 → ∀ b, edge g a b → b ∈ o1

instance (g : Graph) (a b : String) : Decidable (edge g a b) :=
  inferInstanceAs (Decidable (b ∈ graph_nbrs g a))


/-! ### Migration generator (generators/migration_generator.py)

The external `alembic revision` invocation (`_run_alembic_revision`) is a
collaborator: it is passed in as a function from the revision message to a
structured result.  The wall-clock timestamp of `_generate_migration_name`
is likewise a parameter. -/

/-- Structured result of `MigrationGenerator._run_alembic_revision`. -/
inductive AlembicResult where
  | success (file_path : String) : AlembicResult
  | failure (error : String) : AlembicResult
deriving Repr, DecidableEq

def AlembicResult.isSuccess : AlembicResult → Bool
  | AlembicResult.success _ => true
  | AlembicResult.failure _ => false

/-- A generated migration record (the dict appended to `migrations`;
`stage` is 0 for unstaged migrations). -/
structure MigrationArtifact where
  filename : String
  module : String
  stage : Nat := 0
  stage_name : String := ""
  risk_level : String
deriving Repr, DecidableEq

/-- Default naming convention of `MigrationGenerator.__init__` (the
default format template `\x7btimestamp\x7d_\x7bmodule\x7d_\x7bdescription\x7d`
is realised directly by `format_name`). -/
structure NamingConvention where
  dangerous_suffix : String := "_DANGEROUS"
  staged_suffix : String := "_staged"
deriving Repr, DecidableEq

/-- The default template instantiated by
`self.naming_convention["format"].format(**name_parts)`. -/
def format_name (timestamp module_name description : String) : String :=
  timestamp ++ "_" ++ module_name ++ "_" ++ description

/-- Embeds `MigrationGenerator._generate_migration_name`. -/
def generate_migration_name (nc : NamingConvention) (timestamp module_name
    description : String) (safety_report : SafetyReport) (staged : Bool) : String :=
  let name := format_name timestamp module_name description
  let name := if staged then name ++ nc.staged_suffix else name
  if safety_report.risk_level = "HIGH" then name ++ nc.dangerous_suffix else name

/-- Stage-1 filter of `_group_changes_for_staging`: safe additions. -/
def stage1_filter (c : Change) : Bool :=
  (c.ctype = "CREATE_TABLE" ∨ c.ctype = "ADD_COLUMN") ∧ c.nullable.getD true

/-- Stage-2 filter: data migrations. -/
def stage2_filter (c : Change) : Bool := c.ctype = "ALTER_COLUMN_TYPE"

/-- Stage-3 filter: constraint additions. -/
def stage3_filter (c : Change) : Bool :=
  (c.ctype = "ADD_COLUMN" ∧ ¬ c.nullable.getD true) ∨
  (c.ctype = "ALTER_COLUMN_NULLABLE" ∧ ¬ c.nullable.getD true)

/-- Stage-4 filter: dangerous cleanup. -/
def stage4_filter (c : Change) : Bool :=
  c.ctype = "DROP_TABLE" ∨ c.ctype = "DROP_COLUMN" ∨ c.ctype = "DROP_CONSTRAINT"

/-- Embeds `MigrationGenerator._group_changes_for_staging`: the four fixed stage
filters, emitting only non-empty stages. -/
def group_changes_for_staging (changes : List Change) :
    List (String × List Change) :=
  let safe_changes := changes.filter stage1_filter
  let data_changes := changes.filter stage2_filter
  let constraint_changes := changes.filter stage3_filter
  let dangerous_changes := changes.filter stage4_filter
  (if safe_changes ≠ [] then [("safe_additions", safe_changes)] else []) ++
  (if data_changes ≠ [] then [("data_migrations", data_changes)] else []) ++
  (if constraint_changes ≠ [] then [("add_constraints", constraint_changes)] else []) ++
  (if dangerous_changes ≠ [] then [("dangerous_cleanup", dangerous_changes)] else [])

/-- The stage a change would belong to, if any (the four filters are
mutually exclusive, proved below). -/
def stage_of (c : Change) : Option String :=
  if stage1_filter c then some "safe_additions"
  else if stage2_filter c then some "data_migrations"
  else if stage3_filter c then some "add_constraints"
  else if stage4_filter c then some "dangerous_cleanup"
  else none

/-- Total number of occurrences of a change across all emitted stages. -/
def stage_count (c : Change) (stages : List (String × List Change)) : Nat :=
  (stages.map (fun sp => sp.2.count c)).sum

/-- The body of the stage loop of `_generate_staged_migrations`: the migration
dict appended when the alembic run for stage `i` succeeds, `none` when it
fails (the failure is silently skipped). -/
def run_stage (runner : String → AlembicResult) (nc : NamingConvention)
    (timestamp module_name : String) (safety_report : SafetyReport)
    (i : Nat) (stage : String × List Change) : Option MigrationArtifact :=
  let description := stage.1 ++ "_step" ++ toString (i + 1)
  let migration_name :=
    generate_migration_name nc timestamp module_name description safety_report true
  match runner migration_name with
  | AlembicResult.success file_path =>
    some { filename := file_path, module := module_name, stage := i + 1,
           stage_name := stage.1, risk_level := safety_report.risk_level }
  | AlembicResult.failure _ => none

/-- Embeds `MigrationGenerator._generate_staged_migrations`. -/
def generate_staged_migrations (runner : String → AlembicResult)
    (nc : NamingConvention) (timestamp : String) (changes : ChangeSet)
    (safety_report : SafetyReport) : List MigrationArtifact :=
  let staged_groups := group_changes_for_staging changes.changes
  (staged_groups.enum.map (fun si =>
    run_stage runner nc timestamp changes.module safety_report si.1 si.2)).reduceOption

/-- Embeds `MigrationGenerator._generate_description`. -/
def generate_description (changes : ChangeSet) : String :=
  let count : String → Nat := fun t => (changes.changes.filter (fun c => c.ctype = t)).length
  let parts :=
    (if count "CREATE_TABLE" > 0 then ["create_" ++ toString (count "CREATE_TABLE") ++ "_tables"] else []) ++
    (if count "ADD_COLUMN" > 0 then ["add_" ++ toString (count "ADD_COLUMN") ++ "_columns"] else []) ++
    (if count "DROP_TABLE" > 0 then ["drop_" ++ toString (count "DROP_TABLE") ++ "_tables"] else []) ++
    (if count "DROP_COLUMN" > 0 then ["drop_" ++ toString (count "DROP_COLUMN") ++ "_columns"] else []) ++
    (if count "ALTER_COLUMN_TYPE" > 0 then ["alter_column_types"] else [])
  if parts = [] then "schema_changes" else String.intercalate "_" parts

/-- Embeds `MigrationGenerator._generate_single_migration` (file enhancement is a
side effect on the artifact file and is not modelled). -/
def generate_single_migration (runner : String → AlembicResult)
    (nc : NamingConvention) (timestamp : String) (changes : ChangeSet)
    (safety_report : SafetyReport) : Option MigrationArtifact :=
  let description := generate_description changes
  let migration_name :=
    generate_migration_name nc timestamp changes.module description safety_report false
  match runner migration_name with
  | AlembicResult.success file_path =>
    some { filename := file_path, module := changes.module,
           risk_level := safety_report.risk_level }
  | AlembicResult.failure _ => none

/-- Embeds `MigrationGenerator.generate`: staged when the report requires it,
single otherwise. -/
def generate (runner : String → AlembicResult) (nc : NamingConvention)
    (timestamp : String) (changes : ChangeSet) (safety_report : SafetyReport) :
    List MigrationArtifact :=
  if safety_report.requires_staging then
    generate_staged_migrations runner nc timestamp changes safety_report
  else
    match generate_single_migration runner nc timestamp changes safety_report with
    | some m => [m]
    | none => []

/-! ### Concrete scenario data used by witnesses and counterexamples -/

/-- The `users` model as extracted from a declaration with `id` (primary key)
and a not-null `email`. -/
def users_model : ModelDef :=
  { class_name := "User", table_name := "users",
    fields := [{ name := "id", ftype := "Integer", primary_key := true },
               { name := "email", ftype := "String", nullable := false }] }

/-- The `users` model with `id` declared as the SQL-style 64-bit `BIGINT` type. -/
def users_model_bigint : ModelDef :=
  { class_name := "User", table_name := "users",
    fields := [{ name := "id", ftype := "BIGINT", primary_key := true }] }

/-- The `users` model after narrowing `id` to `Integer`. -/
def users_model_int : ModelDef :=
  { class_name := "User", table_name := "users",
    fields := [{ name := "id", ftype := "Integer", primary_key := true }] }

/-- Nullable `nickname` field added on a later observation. -/
def nickname_field : FieldDef := { name := "nickname", ftype := "String" }

/-- The `users` model with the added `nickname`. -/
def users_model_nickname : ModelDef :=
  { users_model with fields := users_model.fields ++ [nickname_field] }

/-- A not-null `ssn` field declared with `default=0`: it has an extracted
default value, but a Python-falsy one. -/
def ssn_field : FieldDef :=
  { name := "ssn", ftype := "Integer", nullable := false, default := PyVal.int 0 }

/-- A not-null-to-nullable relaxation as emitted by `_compare_fields`. -/
def relax_change : Change :=
  { ctype := "ALTER_COLUMN_NULLABLE", table := some "users",
    column := some "legacy_flag", nullable := some true, risk := some "LOW" }

/-- Graph built from the single cross-module edge of the foreign-key
scenario (`orders_module` depends on `customers_module`). -/
def g_orders : Graph :=
  build_dependency_graph [{ from_module := "orders_module", to_module := "customers_module" }]

/-- Rank function witnessing acyclicity of `g_orders`. -/
def g_orders_rank (m : String) : Nat := if m = "orders_module" then 1 else 0

/-- A two-module dependency cycle. -/
def g_cycle : Graph := [("A", ["B"]), ("B", ["A"])]

/-- Changes driving the staged-generation scenario: one safe addition and
one dangerous drop, giving stages `safe_additions` then `dangerous_cleanup`. -/
def c5_changes : ChangeSet :=
  { module := "auth",
    changes := [{ ctype := "ADD_COLUMN", table := some "users",
                  column := some "nickname", nullable := some true },
                { ctype := "DROP_TABLE", table := some "sessions" }] }

/-- A report that demands staging (risk kept LOW so migration names carry
no dangerous suffix). -/
def c5_report : SafetyReport := { requires_staging := true }

/-- A migration-revision runner that fails exactly on the stage-1 revision
message of the scenario and succeeds elsewhere. -/
def c5_runner (name : String) : AlembicResult :=
  if name = "ts_auth_safe_additions_step1_staged" then
    AlembicResult.failure "Alembic command failed"
  else AlembicResult.success (name ++ ".py")

/-! ### Supporting lemmas -/

theorem Reach.trans {g : Graph} {a b c : String}
    (h1 : Reach g a b) (h2 : Reach g b c) : Reach g a c := by
  induction h1 with
  | single he => exact Reach.cons he h2
  | cons he _ ih => exact Reach.cons he (ih h2)

/-- A graph whose edges strictly decrease some rank is acyclic. -/
theorem acyclic_of_rank (g : Graph) (rank : String → Nat)
    (h : ∀ a b, edge g a b → rank b < rank a) : Acyclic g := by
  have key : ∀ a b, Reach g a b → rank b < rank a := by
    intro a b hr
    induction hr with
    | single he => exact h _ _ he
    | cons he _ ih => exact lt_trans ih (h _ _ he)
  intro m hm
  exact lt_irrefl _ (key m m hm)

theorem mem_dict_set (d : List (String × DataImpact)) (k : String) (v : DataImpact) :
    ∀ p ∈ dict_set d k v, p ∈ d ∨ p = (k, v) := by
  induction d with
  | nil => intro p hp; simp [dict_set] at hp; exact Or.inr hp
  | cons q rest ih =>
    intro p hp
    unfold dict_set at hp
    by_cases hk : q.1 = k
    · simp [hk] at hp
      rcases hp with hp | hp
      · exact Or.inr hp
      · exact Or.inl (List.mem_cons_of_mem _ hp)
    · simp [hk] at hp
      rcases hp with hp | hp
      · exact Or.inl (by simp [hp])
      · rcases ih p hp with h | h
        · exact Or.inl (List.mem_cons_of_mem _ h)
        · exact Or.inr h

theorem analyze_one_change_impact_eq (r : SafetyReport) (c : Change) :
    (analyze_one_change r c).data_impact =
      match c.table with
      | some t => dict_set r.data_impact t (estimate_data_impact c)
      | none => r.data_impact := by
  unfold analyze_one_change
  by_cases h : (analyze_change_risk c).risk_level ≠ "LOW" <;>
    cases htab : c.table <;> simp [h, htab]

theorem foldl_data_impact (l : List Change) (r : SafetyReport) :
    ∀ p ∈ (l.foldl analyze_one_change r).data_impact,
      p ∈ r.data_impact ∨ ∃ c ∈ l, c.table = some p.1 ∧ p.2 = estimate_data_impact c := by
  induction l generalizing r with
  | nil => intro p hp; exact Or.inl hp
  | cons c rest ih =>
    intro p hp
    rcases ih (analyze_one_change r c) p hp with h | h
    · rw [analyze_one_change_impact_eq] at h
      cases htab : c.table with
      | none =>
        rw [htab] at h
        exact Or.inl h
      | some t =>
        rw [htab] at h
        rcases mem_dict_set _ _ _ p h with h2 | h2
        · exact Or.inl h2
        · refine Or.inr ⟨c, List.mem_cons_self _ _, ?_, ?_⟩
          · rw [htab, h2]
          · rw [h2]
    · rcases h with ⟨c2, hc2, ht, hv⟩
      exact Or.inr ⟨c2, List.mem_cons_of_mem _ hc2, ht, hv⟩

theorem analyze_changes_impact_eq (th : SafetyThresholds) (cs : ChangeSet)
    (deps : DepInfo) :
    (analyze_changes th (some cs) deps).data_impact =
      (cs.changes.foldl analyze_one_change {}).data_impact := by
  unfold analyze_changes
  by_cases h : cs.changes = []
  · simp [h]
  · simp only [h, if_false]
    split <;> split <;> split <;> rfl

/-! ### C9 — data-impact estimation -/

/-- C9 (corrected): every `data_impact` entry of a safety report is the
result of `_estimate_data_impact` for some constituent change touching that
table, and `_estimate_data_impact` is a hard-coded mock that yields a
zero-row impact — not 1000 rows — for any table absent from its built-in
stats map. -/
theorem c9_data_impact_mock :
    (∀ (c : Change) (t : String), c.table = some t →
      table_stats.find? (fun q => q.1 = t) = none →
      estimate_data_impact c = { row_count := 0, data_size := 0, has_data := false }) ∧
    (∀ (th : SafetyThresholds) (cs : ChangeSet) (deps : DepInfo),
      ∀ p ∈ (analyze_changes th (some cs) deps).data_impact,
        ∃ c ∈ cs.changes, c.table = some p.1 ∧ p.2 = estimate_data_impact c) := by
  constructor
  · intro c t hc hfind
    unfold estimate_data_impact
    rw [hc]
    simp only [Option.getD_some]
    rw [hfind]
  · intro th cs deps p hp
    rw [analyze_changes_impact_eq] at hp
    rcases foldl_data_impact cs.changes {} p hp with h | h
    · simp [SafetyReport.data_impact] at h
    · exact h

/-- C9 counterexample: a change to a table with no available estimate gets
a default row count of 0, not the claimed 1000. -/
theorem c9_counterexample :
    estimate_data_impact { ctype := "ADD_COLUMN", table := some "orders" } =
      { row_count := 0, data_size := 0, has_data := false } ∧ (0 : Nat) ≠ 1000 := by
  exact ⟨rfl, by decide⟩

/-- C9 witness: the amended theorem applied to the `orders` table, which is
absent from the mock stats map. -/
theorem c9_witness :
    estimate_data_impact { ctype := "ADD_COLUMN", table := some "orders" } =
      { row_count := 0, data_size := 0, has_data := false } :=
  c9_data_impact_mock.1 { ctype := "ADD_COLUMN", table := some "orders" } "orders"
    rfl (by decide)

/-! ### C7 — lossy type-change classification -/

/-- C7: an ALTER_COLUMN_TYPE change is classified MEDIUM, escalated to HIGH
exactly when the (old type, new type) pair — upper-cased and stripped of a
size suffix — belongs to the fixed lossy-conversion set; the 64-bit to
32-bit narrowing pair BIGINT to INTEGER belongs to the set. -/
theorem c7_alter_type_risk :
    (∀ (c : Change) (ot nt : String),
      c.ctype = "ALTER_COLUMN_TYPE" → c.old_type = some ot → c.new_type = some nt →
      ((analyze_change_risk c).risk_level = "HIGH" ↔ is_lossy_conversion ot nt = true) ∧
      ((analyze_change_risk c).risk_level = "MEDIUM" ↔ is_lossy_conversion ot nt = false)) ∧
    is_lossy_conversion "BIGINT" "INTEGER" = true := by
  constructor
  · intro c ot nt h1 h2 h3
    unfold analyze_change_risk
    rw [h1, h2, h3]
    simp only [Option.getD_some]
    by_cases hl : is_lossy_conversion ot nt = true
    · simp [hl]
    · simp [hl, Bool.eq_false_iff.mpr hl]
  · decide

/-- C7 witness: the theorem applied to the change the detector emits for a
declaration narrowing `users.id` from `BIGINT` to `Integer`. -/
theorem c7_witness :
    compare_fields users_model_bigint users_model_int =
      [{ ctype := "ALTER_COLUMN_TYPE", table := some "users", column := some "id",
         old_type := some "BIGINT", new_type := some "Integer",
         risk := some "MEDIUM",
         warning := some "Type conversion may fail or lose precision" }] ∧
    (analyze_change_risk
      { ctype := "ALTER_COLUMN_TYPE", table := some "users", column := some "id",
        old_type := some "BIGINT", new_type := some "Integer",
        risk := some "MEDIUM",
        warning := some "Type conversion may fail or lose precision" }).risk_level = "HIGH" := by
  refine ⟨by decide, ?_⟩
  exact (c7_alter_type_risk.1 _ "BIGINT" "Integer" rfl rfl rfl).1.mpr (by decide)

/-! ### C8 — ADD_COLUMN risk classification -/

/-- C8 (corrected): a field added between two observations yields an
ADD_COLUMN change of the detector; the MEDIUM risk stamp and the
missing-default warning appear exactly when the field is not nullable and
its extracted default is Python-falsy (absent, 0, False, or empty string) —
not merely absent; when the field is nullable or its default is truthy the
change carries no risk stamp and the safety analyzer classifies it LOW. -/
theorem c8_add_column_risk :
    ∀ (old_model new_model : ModelDef) (f : FieldDef),
      f.name ∈ field_keys new_model.fields →
      f.name ∉ field_keys old_model.fields →
      field_get new_model.fields f.name = some f →
      add_column_change old_model.table_name f ∈ compare_fields old_model new_model ∧
      (((add_column_change old_model.table_name f).risk = some "MEDIUM" ∧
        (add_column_change old_model.table_name f).warning =
          some "Adding NOT NULL column without default value") ↔
        (f.nullable = false ∧ f.default.truthy = false)) ∧
      ((f.nullable = true ∨ f.default.truthy = true) →
        (add_column_change old_model.table_name f).risk = none ∧
        (analyze_change_risk (add_column_change old_model.table_name f)).risk_level = "LOW") := by
  intro old_model new_model f hnew hold hget
  refine ⟨?_, ?_, ?_⟩
  · unfold compare_fields
    apply List.mem_append_left
    apply List.mem_append_left
    apply List.mem_filterMap.mpr
    refine ⟨f.name, List.mem_filter.mpr ⟨hnew, by simpa using hold⟩, ?_⟩
    rw [hget]
    rfl
  · unfold add_column_change
    by_cases hcond : (¬ f.nullable = true ∧ ¬ f.default.truthy = true)
    · simp only [hcond, if_pos]
      simp only [Bool.not_eq_true] at hcond
      simp [hcond]
    · simp only [hcond, if_neg, not_false_eq_true]
      simp only [not_and_or, Bool.not_eq_true, not_not] at hcond
      constructor
      · intro h
        exact absurd h.1 (by simp)
      · intro h
        rcases hcond with hc | hc
        · exact absurd h.1 hc
        · exact absurd h.2 hc
  · intro h
    have hcond : ¬ (¬ f.nullable = true ∧ ¬ f.default.truthy = true) := by
      rcases h with h | h <;> simp [h]
    unfold add_column_change
    rw [if_neg hcond]
    refine ⟨rfl, ?_⟩
    unfold analyze_change_risk
    rw [if_neg (by simp), if_neg (by simp), if_pos rfl]
    simp only [Option.getD_some]
    rw [if_neg hcond]

/-- C8 witness: the theorem applied to the nullable `nickname` field added
to `users` on a later observation. -/
theorem c8_witness :
    add_column_change users_model.table_name nickname_field ∈
      compare_fields users_model users_model_nickname ∧
    (add_column_change users_model.table_name nickname_field).risk = none ∧
    (analyze_change_risk
      (add_column_change users_model.table_name nickname_field)).risk_level = "LOW" := by
  have h := c8_add_column_risk users_model users_model_nickname nickname_field
    (by decide) (by decide) (by decide)
  exact ⟨h.1, h.2.2 (Or.inl rfl)⟩

/-- C8 counterexample: the not-null `ssn` field declared with `default=0`
has an extracted default value, yet the detector stamps MEDIUM and the
missing-default warning, and the analyzer does not classify it LOW —
refuting risk LOW for every added field that has a default. -/
theorem c8_counterexample :
    ssn_field.default ≠ PyVal.null ∧
    (add_column_change "users" ssn_field).risk = some "MEDIUM" ∧
    (add_column_change "users" ssn_field).warning =
      some "Adding NOT NULL column without default value" ∧
    (analyze_change_risk (add_column_change "users" ssn_field)).risk_level = "MEDIUM" := by
  refine ⟨by decide, rfl, rfl, by decide⟩

/-! ### C3 — stage partitioning -/

theorem count_filter_bool {α : Type} [DecidableEq α] (p : α → Bool) (a : α)
    (l : List α) : (l.filter p).count a = if p a then l.count a else 0 := by
  induction l with
  | nil => simp
  | cons x rest ih =>
    by_cases hx : p x
    · by_cases hax : x = a
      · subst hax
        simp [hx, List.count_cons, ih]
      · simp [hx, List.count_cons, ih, hax]
    · by_cases hax : x = a
      · subst hax
        simp [hx, List.count_cons, ih]
      · simp [hx, List.count_cons, ih, hax]

theorem st12 (c : Change) (h : stage1_filter c = true) : stage2_filter c = false := by
  simp [stage1_filter] at h
  rcases h.1 with h1 | h1 <;> simp [stage2_filter, h1]

theorem st13 (c : Change) (h : stage1_filter c = true) : stage3_filter c = false := by
  simp [stage1_filter] at h
  simp [stage3_filter, h.2]

theorem st14 (c : Change) (h : stage1_filter c = true) : stage4_filter c = false := by
  simp [stage1_filter] at h
  rcases h.1 with h1 | h1 <;> simp [stage4_filter, h1]

theorem st23 (c : Change) (h : stage2_filter c = true) : stage3_filter c = false := by
  simp [stage2_filter] at h
  simp [stage3_filter, h]

theorem st24 (c : Change) (h : stage2_filter c = true) : stage4_filter c = false := by
  simp [stage2_filter] at h
  simp [stage4_filter, h]

theorem st34 (c : Change) (h : stage3_filter c = true) : stage4_filter c = false := by
  simp [stage3_filter] at h
  rcases h with h1 | h1 <;> simp [stage4_filter, h1.1]

theorem stage_count_eq (changes : List Change) (c : Change) :
    stage_count c (group_changes_for_staging changes) =
      (if stage1_filter c then changes.count c else 0) +
      (if stage2_filter c then changes.count c else 0) +
      (if stage3_filter c then changes.count c else 0) +
      (if stage4_filter c then changes.count c else 0) := by
  have block : ∀ (nm : String) (p : Change → Bool),
      ((if changes.filter p ≠ [] then [(nm, changes.filter p)] else []).map
        (fun sp => sp.2.count c)).sum = if p c then changes.count c else 0 := by
    intro nm p
    by_cases hp : changes.filter p = []
    · simp [hp]
      rw [← count_filter_bool p c changes, hp]
      simp
    · simp [hp]
      exact count_filter_bool p c changes
  unfold stage_count group_changes_for_staging
  simp only [List.map_append, List.sum_append]
  rw [block "safe_additions" stage1_filter, block "data_migrations" stage2_filter,
      block "add_constraints" stage3_filter, block "dangerous_cleanup" stage4_filter]

/-- C3 (corrected): the staged generator is invoked exactly when the report
requires staging; every emitted stage is non-empty; and a change occurs
across the stages exactly as often as it occurs in the change list when it
matches one of the four stage filters — and not at all otherwise (so
not-null-to-nullable relaxations, which match no filter, are dropped from
the staged sequence rather than covered exactly once). -/
theorem c3_staging_partition :
    (∀ (runner : String → AlembicResult) (nc : NamingConvention) (ts : String)
        (cs : ChangeSet) (report : SafetyReport), report.requires_staging = true →
      generate runner nc ts cs report = generate_staged_migrations runner nc ts cs report) ∧
    (∀ (changes : List Change) (sp : String × List Change),
      sp ∈ group_changes_for_staging changes → sp.2 ≠ []) ∧
    (∀ (changes : List Change) (c : Change),
      stage_count c (group_changes_for_staging changes) =
        if (stage_of c).isSome then changes.count c else 0) := by
  refine ⟨?_, ?_, ?_⟩
  · intro runner nc ts cs report h
    unfold generate
    rw [if_pos h]
  · intro changes sp hsp
    unfold group_changes_for_staging at hsp
    have handle : ∀ (nm : String) (l : List Change),
        sp ∈ (if l ≠ [] then [(nm, l)] else []) → sp.2 ≠ [] := by
      intro nm l hm
      split at hm
      case isTrue hne =>
        rw [List.mem_singleton] at hm
        rw [hm]
        exact hne
      case isFalse => exact absurd hm (List.not_mem_nil _)
    rcases List.mem_append.1 hsp with hm | hm4
    · rcases List.mem_append.1 hm with hm | hm3
      · rcases List.mem_append.1 hm with hm1 | hm2
        · exact handle _ _ hm1
        · exact handle _ _ hm2
      · exact handle _ _ hm3
    · exact handle _ _ hm4
  · intro changes c
    rw [stage_count_eq]
    by_cases h1 : stage1_filter c
    · simp [stage_of, h1, st12 c h1, st13 c h1, st14 c h1]
    · by_cases h2 : stage2_filter c
      · simp [stage_of, h1, h2, st23 c h2, st24 c h2]
      · by_cases h3 : stage3_filter c
        · simp [stage_of, h1, h2, h3, st34 c h3]
        · by_cases h4 : stage4_filter c <;> simp [stage_of, h1, h2, h3, h4]

/-- C3 counterexample: a ChangeSet consisting of one not-null-to-nullable
ALTER_COLUMN_NULLABLE change partitions into no stage at all — the change
appears in zero stages, not exactly one. -/
theorem c3_counterexample :
    group_changes_for_staging [relax_change] = [] ∧
    stage_count relax_change (group_changes_for_staging [relax_change]) = 0 ∧
    List.count relax_change [relax_change] = 1 := by
  refine ⟨rfl, rfl, by decide⟩

/-- C3 witness: the amended theorem applied to the staged scenario — the
dispatch fires on a staging report, the emitted `dangerous_cleanup` stage is
non-empty, and its DROP_TABLE change is covered exactly once. -/
theorem c3_witness :
    generate c5_runner {} "ts" c5_changes c5_report =
      generate_staged_migrations c5_runner {} "ts" c5_changes c5_report ∧
    ("dangerous_cleanup",
      [{ ctype := "DROP_TABLE", table := some "sessions" }]).2 ≠ ([] : List Change) ∧
    stage_count { ctype := "DROP_TABLE", table := some "sessions" }
      (group_changes_for_staging c5_changes.changes) = 1 := by
  refine ⟨c3_staging_partition.1 c5_runner {} "ts" c5_changes c5_report rfl, ?_, ?_⟩
  · exact c3_staging_partition.2.1 c5_changes.changes _ (by decide)
  · rw [c3_staging_partition.2.2 c5_changes.changes
      { ctype := "DROP_TABLE", table := some "sessions" }]
    decide

/-! ### C5 — behaviour of staged generation under tool failure -/

theorem staged_stage_numbers (runner : String → AlembicResult)
    (nc : NamingConvention) (ts mod : String) (report : SafetyReport)
    (l : List (Nat × String × List Change)) :
    ((l.map (fun si => run_stage runner nc ts mod report si.1 si.2)).reduceOption).map
        (fun m => m.stage) =
      (l.filter (fun si => (runner (generate_migration_name nc ts mod
        (si.2.1 ++ "_step" ++ toString (si.1 + 1)) report true)).isSuccess)).map
        (fun si => si.1 + 1) := by
  induction l with
  | nil => rfl
  | cons si rest ih =>
    cases hr : runner (generate_migration_name nc ts mod
        (si.2.1 ++ "_step" ++ toString (si.1 + 1)) report true) with
    | success fp =>
      have hhead : run_stage runner nc ts mod report si.1 si.2 =
          some { filename := fp, module := mod, stage := si.1 + 1,
                 stage_name := si.2.1, risk_level := report.risk_level } := by
        simp [run_stage, hr]
      have hcond : (runner (generate_migration_name nc ts mod
          (si.2.1 ++ "_step" ++ toString (si.1 + 1)) report true)).isSuccess = true := by
        rw [hr]
        rfl
      simp only [List.map_cons, hhead, List.reduceOption_cons_of_some,
        List.filter_cons, hcond, if_true, ih]
    | failure e =>
      have hhead : run_stage runner nc ts mod report si.1 si.2 = none := by
        simp [run_stage, hr]
      have hcond : (runner (generate_migration_name nc ts mod
          (si.2.1 ++ "_step" ++ toString (si.1 + 1)) report true)).isSuccess = false := by
        rw [hr]
        rfl
      simp only [List.map_cons, hhead, List.reduceOption_cons_of_none,
        List.filter_cons, hcond, Bool.false_eq_true, if_false]
      exact ih

/-- C5 (corrected): during staged generation a failed migration-tool
invocation does not halt the stage sequence — the failed stage is silently
skipped and every remaining stage is still attempted, so the generated
stage numbers are exactly those whose tool invocation succeeded (earlier
artifacts are left in place, later ones are still produced). -/
theorem c5_failed_stage_skipped :
    ∀ (runner : String → AlembicResult) (nc : NamingConvention) (ts : String)
      (cs : ChangeSet) (report : SafetyReport),
      (generate_staged_migrations runner nc ts cs report).map (fun m => m.stage) =
        ((group_changes_for_staging cs.changes).enum.filter (fun si =>
          (runner (generate_migration_name nc ts cs.module
            (si.2.1 ++ "_step" ++ toString (si.1 + 1)) report true)).isSuccess)).map
          (fun si => si.1 + 1) := by
  intro runner nc ts cs report
  unfold generate_staged_migrations
  exact staged_stage_numbers runner nc ts cs.module report
    (group_changes_for_staging cs.changes).enum

/-- C5 counterexample: the tool invocation for stage 1 fails, yet the
stage-2 migration is still generated — the sequence does not halt at the
failed stage. -/
theorem c5_counterexample :
    c5_runner "ts_auth_safe_additions_step1_staged" =
      AlembicResult.failure "Alembic command failed" ∧
    (generate_staged_migrations c5_runner {} "ts" c5_changes c5_report).map
      (fun m => m.stage) = [2] := by
  exact ⟨rfl, rfl⟩

/-! ### C2 / C6 — detector behaviour on parse failure and unchanged content -/

theorem mem_py_keys_aux (l acc : List String) (x : String) :
    x ∈ l.foldl (fun acc k => if k ∈ acc then acc else acc ++ [k]) acc ↔
      x ∈ acc ∨ x ∈ l := by
  induction l generalizing acc with
  | nil => simp
  | cons k rest ih =>
    by_cases hk : k ∈ acc
    · rw [List.foldl_cons, if_pos hk, ih]
      constructor
      · rintro (h | h)
        · exact Or.inl h
        · exact Or.inr (List.mem_cons_of_mem _ h)
      · rintro (h | h)
        · exact Or.inl h
        · rcases List.mem_cons.1 h with h | h
          · exact Or.inl (h ▸ hk)
          · exact Or.inr h
    · rw [List.foldl_cons, if_neg hk, ih]
      simp only [List.mem_append, List.mem_singleton, List.mem_cons]
      tauto

theorem mem_py_keys (l : List String) (x : String) : x ∈ py_keys l ↔ x ∈ l := by
  unfold py_keys
  rw [mem_py_keys_aux]
  simp

theorem py_get_of_mem_keys (ms : List ModelDef) (n : String)
    (h : n ∈ model_keys ms) : ∃ m, py_get ms n = some m ∧ m.class_name = n := by
  unfold model_keys at h
  rw [mem_py_keys] at h
  rcases List.mem_map.1 h with ⟨m0, hm0, hname⟩
  have hsome : (py_get ms n).isSome := by
    unfold py_get
    apply List.find?_isSome.2
    exact ⟨m0, List.mem_reverse.2 hm0, by simp [hname]⟩
  rcases Option.isSome_iff_exists.1 hsome with ⟨m, hm⟩
  refine ⟨m, hm, ?_⟩
  unfold py_get at hm
  have h2 := List.find?_some hm
  simpa using h2

theorem flatMap_eq_nil_of_forall {α β : Type} (l : List α) (f : α → List β)
    (h : ∀ x ∈ l, f x = []) : l.flatMap f = [] := by
  induction l with
  | nil => rfl
  | cons x rest ih =>
    rw [List.flatMap_cons, h x (List.mem_cons_self _ _),
      ih (fun y hy => h y (List.mem_cons_of_mem _ hy))]
    rfl

theorem filter_not_mem_self (l : List String) :
    l.filter (fun n => decide (n ∉ l)) = [] := by
  rw [List.filter_eq_nil_iff]
  intro a ha
  simp [ha]

theorem field_mod_changes_self (t : String) (f : FieldDef) :
    field_mod_changes t f f = [] := by
  simp [field_mod_changes]

theorem compare_fields_self (m : ModelDef) : compare_fields m m = [] := by
  simp only [compare_fields]
  rw [filter_not_mem_self]
  simp only [List.filterMap_nil, List.map_nil, List.nil_append, List.append_nil]
  apply flatMap_eq_nil_of_forall
  intro n _
  cases hf : field_get m.fields n with
  | none => rfl
  | some f => simp [hf, field_mod_changes_self]

/-- C6: re-running detection on unchanged content yields a ChangeSet with
no changes — the diff of a parse outcome against itself is empty, both at
the `_compare_models` level and through `detect_changes` with the snapshot
cache holding the same content. -/
theorem c6_unchanged_content_empty :
    ∀ (content : Content) (module_name : String),
      (compare_models content content module_name).changes = [] ∧
      (detect_changes (some content) content module_name).1 =
        some { module := module_name, changes := [] } := by
  intro content module_name
  have hcmp : compare_models content content module_name =
      { module := module_name, changes := [] } := by
    simp only [compare_models]
    rw [filter_not_mem_self]
    simp only [List.filterMap_nil, List.nil_append, List.append_nil]
    congr 1
    apply flatMap_eq_nil_of_forall
    intro n _
    cases hf : py_get (parse_models content) n with
    | none => rfl
    | some m => simp [hf, compare_fields_self, compare_constraints]
  exact ⟨by rw [hcmp], by simp [detect_changes, hcmp]⟩

/-- C2 (corrected): a parse failure is indeed caught locally and never
escapes, and on the first observation of a file it yields an empty result;
but on a later observation a parse failure of the new content is treated
as an empty model list, so every previously cached model is reported as a
DROP_TABLE change — not an empty ChangeSet. -/
theorem c2_parse_failure_behaviour :
    (∀ module_name : String, analyze_new_file none module_name = none) ∧
    (∀ module_name : String, (detect_changes none none module_name).1 = none) ∧
    (∀ (content : Content) (module_name : String),
      ∀ c ∈ (compare_models content none module_name).changes,
        c.ctype = "DROP_TABLE") ∧
    (∀ (content : Content) (module_name n : String),
      n ∈ model_keys (parse_models content) →
      ∃ c ∈ (compare_models content none module_name).changes,
        c.ctype = "DROP_TABLE" ∧ c.model = some n) := by
  have hchg : ∀ (content : Content) (module_name : String),
      (compare_models content none module_name).changes =
        (model_keys (parse_models content)).filterMap
          (fun nm => (py_get (parse_models content) nm).map drop_table_change) := by
    intro content module_name
    simp only [compare_models]
    have h1 : parse_models (none : Content) = [] := rfl
    rw [h1]
    have h2 : model_keys ([] : List ModelDef) = [] := rfl
    rw [h2]
    have h3 : (model_keys (parse_models content)).filter
        (fun n => decide (n ∈ ([] : List String))) = [] := by
      rw [List.filter_eq_nil_iff]
      intro a _
      simp
    have h4 : (model_keys (parse_models content)).filter
        (fun n => decide (n ∉ ([] : List String))) =
        model_keys (parse_models content) := by
      rw [List.filter_eq_self]
      intro a _
      simp
    rw [h3, h4]
    simp
  refine ⟨fun module_name => rfl, fun module_name => rfl, ?_, ?_⟩
  · intro content module_name c hc
    rw [hchg content module_name] at hc
    rcases List.mem_filterMap.1 hc with ⟨nm, _, hmap⟩
    cases hg : py_get (parse_models content) nm with
    | none => rw [hg] at hmap; exact absurd hmap (by simp)
    | some m =>
      rw [hg] at hmap
      have hmap2 : drop_table_change m = c := by simpa using hmap
      rw [← hmap2]
      rfl
  · intro content module_name n hn
    rcases py_get_of_mem_keys (parse_models content) n hn with ⟨m, hm, hname⟩
    refine ⟨drop_table_change m, ?_, rfl, ?_⟩
    · rw [hchg content module_name]
      exact List.mem_filterMap.2 ⟨n, hn, by rw [hm]; rfl⟩
    · rw [drop_table_change, hname]

/-- C2 counterexample: a file whose cached content defines the `users`
model and whose new content fails to parse yields a DROP_TABLE change —
not the empty ChangeSet the claim requires for re-observations. -/
theorem c2_counterexample :
    (detect_changes (some (some [users_model])) none "auth").1 =
      some { module := "auth", changes := [drop_table_change users_model] } ∧
    [drop_table_change users_model] ≠ ([] : List Change) := by
  exact ⟨rfl, by decide⟩

/-- C2 witness: the amended theorem applied to cached content defining
`users`, whose re-observation fails to parse. -/
theorem c2_witness :
    ∃ c ∈ (compare_models (some [users_model]) none "auth").changes,
      c.ctype = "DROP_TABLE" ∧ c.model = some "User" :=
  c2_parse_failure_behaviour.2.2.2 (some [users_model]) "auth" "User" (by decide)

/-! ### C1 — risk-level aggregation -/

theorem analyze_one_change_risk_eq (r : SafetyReport) (c : Change) :
    (analyze_one_change r c).risk_level =
      max_risk_level r.risk_level (analyze_change_risk c).risk_level := by
  unfold analyze_one_change
  by_cases h : (analyze_change_risk c).risk_level ≠ "LOW" <;>
    cases htab : c.table <;> simp [h, htab]

theorem foldl_risk_eq (l : List Change) (r : SafetyReport) :
    (l.foldl analyze_one_change r).risk_level =
      l.foldl (fun lv c => max_risk_level lv (analyze_change_risk c).risk_level)
        r.risk_level := by
  induction l generalizing r with
  | nil => rfl
  | cons c rest ih =>
    rw [List.foldl_cons, List.foldl_cons, ih, analyze_one_change_risk_eq]

theorem analyze_changes_risk_eq (th : SafetyThresholds) (cs : ChangeSet)
    (deps : DepInfo) :
    (analyze_changes th (some cs) deps).risk_level =
      (cs.changes.foldl analyze_one_change {}).risk_level := by
  unfold analyze_changes
  by_cases h : cs.changes = []
  · simp [h]
  · simp only [h, if_false]
    split <;> split <;> split <;> rfl

theorem risk_ord_max (a b : String) :
    risk_ord (max_risk_level a b) = max (risk_ord a) (risk_ord b) := by
  unfold max_risk_level
  split <;> omega

theorem foldl_max_ord (l : List Change) (init : String) :
    risk_ord (l.foldl (fun lv c =>
        max_risk_level lv (analyze_change_risk c).risk_level) init) =
      l.foldl (fun n c => max n (risk_ord (analyze_change_risk c).risk_level))
        (risk_ord init) := by
  induction l generalizing init with
  | nil => rfl
  | cons c rest ih =>
    rw [List.foldl_cons, List.foldl_cons, ih, risk_ord_max]

theorem foldl_max_eq_foldr (f : Change → Nat) (l : List Change) (a : Nat) :
    l.foldl (fun n c => max n (f c)) a = max a ((l.map f).foldr max 0) := by
  induction l generalizing a with
  | nil => simp
  | cons c rest ih =>
    rw [List.foldl_cons, ih, List.map_cons, List.foldr_cons]
    omega

theorem le_foldr_max (f : Change → Nat) (l : List Change) (c : Change)
    (hc : c ∈ l) : f c ≤ (l.map f).foldr max 0 := by
  induction l with
  | nil => exact absurd hc (List.not_mem_nil _)
  | cons x rest ih =>
    rw [List.map_cons, List.foldr_cons]
    rcases List.mem_cons.1 hc with h | h
    · rw [h]
      exact le_max_left _ _
    · exact le_trans (ih h) (le_max_right _ _)

theorem foldl_max_risk_mem (l : List Change) (init : String) :
    l.foldl (fun lv c => max_risk_level lv (analyze_change_risk c).risk_level)
        init = init ∨
      ∃ c ∈ l, l.foldl (fun lv c =>
        max_risk_level lv (analyze_change_risk c).risk_level) init =
          (analyze_change_risk c).risk_level := by
  induction l generalizing init with
  | nil => exact Or.inl rfl
  | cons c rest ih =>
    rw [List.foldl_cons]
    rcases ih (max_risk_level init (analyze_change_risk c).risk_level) with h | h
    · rw [h]
      unfold max_risk_level
      split
      · exact Or.inr ⟨c, List.mem_cons_self _ _, rfl⟩
      · exact Or.inl rfl
    · rcases h with ⟨c2, hc2, heq⟩
      exact Or.inr ⟨c2, List.mem_cons_of_mem _ hc2, heq⟩

/-- C1: the overall `risk_level` of a safety report is exactly the maximum
(in the ordinal LOW < MEDIUM < HIGH) of the per-change risk levels, is
never below the risk of any constituent change, and when it is not "LOW"
it is literally the risk level of one of the constituent changes. -/
theorem c1_risk_level_is_max :
    ∀ (th : SafetyThresholds) (cs : ChangeSet) (deps : DepInfo),
      risk_ord (analyze_changes th (some cs) deps).risk_level =
        ((cs.changes.map (fun c =>
          risk_ord (analyze_change_risk c).risk_level)).foldr max 0) ∧
      (∀ c ∈ cs.changes,
        risk_ord (analyze_change_risk c).risk_level ≤
          risk_ord (analyze_changes th (some cs) deps).risk_level) ∧
      ((analyze_changes th (some cs) deps).risk_level = "LOW" ∨
        ∃ c ∈ cs.changes, (analyze_changes th (some cs) deps).risk_level =
          (analyze_change_risk c).risk_level) := by
  intro th cs deps
  have hmax : risk_ord (analyze_changes th (some cs) deps).risk_level =
      ((cs.changes.map (fun c =>
        risk_ord (analyze_change_risk c).risk_level)).foldr max 0) := by
    rw [analyze_changes_risk_eq, foldl_risk_eq, foldl_max_ord, foldl_max_eq_foldr]
    have : risk_ord (SafetyReport.risk_level {}) = 0 := rfl
    rw [this]
    omega
  refine ⟨hmax, ?_, ?_⟩
  · intro c hc
    rw [hmax]
    exact le_foldr_max (fun c => risk_ord (analyze_change_risk c).risk_level)
      cs.changes c hc
  · rw [analyze_changes_risk_eq, foldl_risk_eq]
    have h0 : SafetyReport.risk_level {} = "LOW" := rfl
    rw [h0]
    exact foldl_max_risk_mem cs.changes "LOW"

/-- C1 witness: the theorem applied to a ChangeSet holding a HIGH DROP_TABLE
and a LOW ADD_COLUMN — the report risk is not below the DROP_TABLE risk. -/
theorem c1_witness :
    risk_ord (analyze_change_risk
      { ctype := "DROP_TABLE", table := some "sessions" }).risk_level ≤
      risk_ord (analyze_changes {} (some c5_changes) {}).risk_level :=
  (c1_risk_level_is_max {} c5_changes {}).2.1
    { ctype := "DROP_TABLE", table := some "sessions" } (by decide)

/-! ### C4 / C10 — migration-order DFS -/

theorem visit_zero (g : Graph) (s : DfsState) (m : String) :
    visit g 0 s m = s := by
  rw [visit]

theorem visit_succ (g : Graph) (fuel : Nat) (s : DfsState) (m : String) :
    visit g (fuel + 1) s m =
      if m ∈ s.visited then s
      else
        match g.find? (fun p => p.1 = m) with
        | none => { visited := m :: s.visited, order := s.order ++ [m] }
        | some p =>
          let s1 := visit_deps g fuel { s with visited := m :: s.visited } p.2
          { s1 with order := s1.order ++ [m] } := by
  rw [visit]

theorem visit_deps_nil (g : Graph) (fuel : Nat) (s : DfsState) :
    visit_deps g fuel s [] = s := by
  rw [visit_deps]

theorem visit_deps_cons (g : Graph) (fuel : Nat) (s : DfsState) (n : String)
    (rest : List String) :
    visit_deps g fuel s (n :: rest) = visit_deps g fuel (visit g fuel s n) rest := by
  rw [visit_deps]

theorem mem_nodes_of_key (g : Graph) (m : String) (h : m ∈ graph_keys g) :
    m ∈ graph_nodes g := by
  induction g with
  | nil => exact absurd h (List.not_mem_nil _)
  | cons p rest ih =>
    have hnodes : graph_nodes (p :: rest) = p.1 :: (p.2 ++ graph_nodes rest) := rfl
    have hkeys : graph_keys (p :: rest) = p.1 :: graph_keys rest := rfl
    rw [hkeys] at h
    rw [hnodes]
    rcases List.mem_cons.1 h with h1 | h1
    · exact List.mem_cons.2 (Or.inl h1)
    · exact List.mem_cons.2 (Or.inr (List.mem_append.2 (Or.inr (ih h1))))

theorem nbrs_subset_nodes (g : Graph) (p : String × List String) (hp : p ∈ g) :
    ∀ b ∈ p.2, b ∈ graph_nodes g := by
  induction g with
  | nil => exact absurd hp (List.not_mem_nil _)
  | cons q rest ih =>
    intro b hb
    have hnodes : graph_nodes (q :: rest) = q.1 :: (q.2 ++ graph_nodes rest) := rfl
    rw [hnodes]
    rcases List.mem_cons.1 hp with h1 | h1
    · rw [h1] at hb
      exact List.mem_cons.2 (Or.inr (List.mem_append.2 (Or.inl hb)))
    · exact List.mem_cons.2 (Or.inr (List.mem_append.2 (Or.inr (ih h1 b hb))))

theorem length_filter_le_of_imp (l : List String) (p q : String → Bool)
    (h : ∀ x, p x = true → q x = true) :
    (l.filter p).length ≤ (l.filter q).length := by
  induction l with
  | nil => exact le_refl _
  | cons x rest ih =>
    by_cases hp : p x
    · rw [List.filter_cons_of_pos hp, List.filter_cons_of_pos (h x hp)]
      simpa using ih
    · rw [List.filter_cons_of_neg hp]
      by_cases hq : q x
      · rw [List.filter_cons_of_pos hq]
        exact le_trans ih (Nat.le_succ _)
      · rw [List.filter_cons_of_neg hq]
        exact ih

theorem length_filter_lt (l : List String) (p q : String → Bool)
    (h : ∀ x, p x = true → q x = true) (a : String) (ha : a ∈ l)
    (hqa : q a = true) (hpa : p a = false) :
    (l.filter p).length < (l.filter q).length := by
  induction l with
  | nil => exact absurd ha (List.not_mem_nil _)
  | cons x rest ih =>
    rcases List.mem_cons.1 ha with h1 | h1
    · subst h1
      rw [List.filter_cons_of_neg (by simp [hpa]), List.filter_cons_of_pos hqa]
      exact Nat.lt_succ_of_le (length_filter_le_of_imp rest p q h)
    · by_cases hp : p x
      · rw [List.filter_cons_of_pos hp, List.filter_cons_of_pos (h x hp)]
        simpa using ih h1
      · rw [List.filter_cons_of_neg hp]
        by_cases hq : q x
        · rw [List.filter_cons_of_pos hq]
          exact Nat.lt_succ_of_le (le_of_lt (ih h1))
        · rw [List.filter_cons_of_neg hq]
          exact ih h1

theorem unvisited_le_of_subset (g : Graph) (v w : List String)
    (h : ∀ x ∈ v, x ∈ w) : unvisited g w ≤ unvisited g v := by
  apply length_filter_le_of_imp
  intro x hx
  simp only [decide_eq_true_eq] at hx ⊢
  intro hv
  exact hx (h x hv)

theorem unvisited_lt_cons (g : Graph) (m : String) (v : List String)
    (hm : m ∈ graph_nodes g) (hv : m ∉ v) :
    unvisited g (m :: v) < unvisited g v := by
  refine length_filter_lt (graph_nodes g) _ _ ?_ m hm ?_ ?_
  · intro x hx
    simp only [decide_eq_true_eq, List.mem_cons] at hx ⊢
    tauto
  · simp only [decide_eq_true_eq]
    exact hv
  · simp

theorem dfs_inv_refl (s : DfsState) : dfs_inv s s := by
  refine ⟨[], by simp, List.nodup_nil, by simp, by simp⟩

theorem dfs_inv_trans (s t u : DfsState) (h1 : dfs_inv s t) (h2 : dfs_inv t u) :
    dfs_inv s u := by
  rcases h1 with ⟨d1, ho1, hn1, hd1, hv1⟩
  rcases h2 with ⟨d2, ho2, hn2, hd2, hv2⟩
  refine ⟨d1 ++ d2, by rw [ho2, ho1, List.append_assoc], ?_, ?_, ?_⟩
  · rw [List.nodup_append]
    refine ⟨hn1, hn2, ?_⟩
    intro x hx1 hx2
    exact hd2 x hx2 ((hv1 x).2 (Or.inr hx1))
  · intro x hx
    rcases List.mem_append.1 hx with h | h
    · exact hd1 x h
    · intro hv
      exact hd2 x h ((hv1 x).2 (Or.inl hv))
  · intro x
    rw [hv2 x, hv1 x, List.mem_append]
    tauto

theorem dfs_inv_visited_subset (s t : DfsState) (h : dfs_inv s t) :
    ∀ x ∈ s.visited, x ∈ t.visited := by
  rcases h with ⟨d, _, _, _, hv⟩
  intro x hx
  exact (hv x).2 (Or.inl hx)

/-- The basic DFS postcondition: given enough fuel, a visit adds a
duplicate-free block of new modules to both the order and the visited set,
and the visited module ends up visited; a dependency loop moreover leaves
every listed module visited. -/
theorem visit_spec (g : Graph) :
    ∀ fuel : Nat,
      (∀ (s : DfsState) (m : String), unvisited g s.visited < fuel →
        dfs_inv s (visit g fuel s m) ∧ m ∈ (visit g fuel s m).visited) ∧
      (∀ (s : DfsState) (ms : List String), unvisited g s.visited < fuel →
        dfs_inv s (visit_deps g fuel s ms) ∧
        ∀ n ∈ ms, n ∈ (visit_deps g fuel s ms).visited) := by
  intro fuel
  induction fuel with
  | zero => exact ⟨fun s m h => absurd h (Nat.not_lt_zero _),
      fun s ms h => absurd h (Nat.not_lt_zero _)⟩
  | succ fuel ih =>
    have hvisit : ∀ (s : DfsState) (m : String),
        unvisited g s.visited < fuel + 1 →
        dfs_inv s (visit g (fuel + 1) s m) ∧ m ∈ (visit g (fuel + 1) s m).visited := by
      intro s m hfuel
      rw [visit_succ]
      by_cases hm : m ∈ s.visited
      · rw [if_pos hm]
        exact ⟨dfs_inv_refl s, hm⟩
      · rw [if_neg hm]
        cases hfind : g.find? (fun p => p.1 = m) with
        | none =>
          refine ⟨⟨[m], rfl, List.nodup_singleton m, ?_, ?_⟩, List.mem_cons_self _ _⟩
          · intro x hx
            rw [List.mem_singleton.1 hx]
            exact hm
          · intro x
            simp [List.mem_cons, or_comm]
        | some p =>
          have hkey : m ∈ graph_keys g := by
            have h1 := List.find?_some hfind
            have h2 := List.mem_of_find?_eq_some hfind
            simp only [decide_eq_true_eq] at h1
            rw [← h1]
            exact List.mem_map.2 ⟨p, h2, rfl⟩
          have hnode : m ∈ graph_nodes g := mem_nodes_of_key g m hkey
          have hlt : unvisited g (m :: s.visited) < fuel :=
            lt_of_lt_of_le (unvisited_lt_cons g m s.visited hnode hm)
              (Nat.lt_succ_iff.1 hfuel)
          rcases ih.2 { s with visited := m :: s.visited } p.2 hlt with ⟨hinv, _⟩
          rcases hinv with ⟨d0, ho0, hn0, hd0, hv0⟩
          constructor
          · refine ⟨d0 ++ [m], ?_, ?_, ?_, ?_⟩
            · simp only [ho0, List.append_assoc]
            · rw [List.nodup_append]
              refine ⟨hn0, List.nodup_singleton m, ?_⟩
              intro x hx hxm
              rw [List.mem_singleton.1 hxm] at hx
              exact hd0 m hx (List.mem_cons_self _ _)
            · intro x hx
              rcases List.mem_append.1 hx with h | h
              · intro hv
                exact hd0 x h (List.mem_cons_of_mem _ hv)
              · rw [List.mem_singleton.1 h]
                exact hm
            · intro x
              rw [hv0 x]
              simp only [List.mem_cons, List.mem_append, List.mem_singleton]
              tauto
          · exact (hv0 m).2 (Or.inl (List.mem_cons_self _ _))
    refine ⟨hvisit, ?_⟩
    intro s ms
    induction ms generalizing s with
    | nil =>
      intro hfuel
      rw [visit_deps_nil]
      exact ⟨dfs_inv_refl s, by simp⟩
    | cons n rest ihms =>
      intro hfuel
      rw [visit_deps_cons]
      rcases hvisit s n hfuel with ⟨hinv1, hn1⟩
      have hsub := dfs_inv_visited_subset s _ hinv1
      have hfuel1 : unvisited g (visit g (fuel + 1) s n).visited < fuel + 1 :=
        lt_of_le_of_lt (unvisited_le_of_subset g _ _ hsub) hfuel
      rcases ihms (visit g (fuel + 1) s n) hfuel1 with ⟨hinv2, hrest⟩
      refine ⟨dfs_inv_trans _ _ _ hinv1 hinv2, ?_⟩
      intro x hx
      rcases List.mem_cons.1 hx with h | h
      · rw [h]
        exact dfs_inv_visited_subset _ _ hinv2 n hn1
      · exact hrest x h

/-- C10: on every finite dependency graph — cyclic ones included — the
migration-order computation completes (it is realised here with a proven
sufficient recursion bound) and its result lists every module key of the
graph exactly once. -/
theorem c10_order_counts_keys_once :
    ∀ (g : Graph), ∀ k ∈ graph_keys g, (calculate_migration_order g).count k = 1 := by
  intro g k hk
  unfold calculate_migration_order
  have hfuel : unvisited g ([] : List String) < (graph_nodes g).length + 1 := by
    unfold unvisited
    have hfe : (graph_nodes g).filter (fun x => decide (x ∉ ([] : List String))) =
        graph_nodes g := by
      rw [List.filter_eq_self]
      intro a _
      simp
    rw [hfe]
    exact Nat.lt_succ_self _
  rcases (visit_spec g ((graph_nodes g).length + 1)).2
      { visited := [], order := [] } (graph_keys g) hfuel with ⟨hinv, hall⟩
  rcases hinv with ⟨d, ho, hnd, _, hv⟩
  have hmem := hall k hk
  rw [hv k] at hmem
  have hkd : k ∈ d := by
    rcases hmem with h | h
    · exact absurd h (List.not_mem_nil _)
    · exact h
  rw [ho]
  simp only [List.nil_append]
  exact List.count_eq_one_of_mem hnd hkd

/-- C10 witness: the theorem applied to a two-module dependency cycle —
the graph is genuinely cyclic, yet the order still lists the key once. -/
theorem c10_witness :
    Reach g_cycle "A" "A" ∧ (calculate_migration_order g_cycle).count "A" = 1 :=
  ⟨Reach.cons (g := g_cycle) (b := "B") (by decide) (Reach.single (by decide)),
    c10_order_counts_keys_once g_cycle "A" (by decide)⟩

theorem good_order_nil (g : Graph) : good_order g [] := by
  intro o1 a o2 h
  exact absurd h (by simp)

theorem good_order_append_single (g : Graph) (o : List String) (m : String)
    (hgood : good_order g o) (hm : ∀ b, edge g m b → b ∈ o) :
    good_order g (o ++ [m]) := by
  intro o1 a o2 heq b hb
  rcases List.append_eq_append_iff.1 heq with ⟨a', ha1, ha2⟩ | ⟨c', hc1, hc2⟩
  · cases a' with
    | nil =>
      simp only [List.nil_append] at ha2
      have ham : a = m ∧ o2 = [] := by
        have := ha2.symm
        simp only [List.cons.injEq] at this
        exact ⟨this.1, this.2⟩
      rw [ha1, List.append_nil]
      exact hm b (ham.1 ▸ hb)
    | cons x xs =>
      exfalso
      have := ha2.symm
      simp only [List.cons_append, List.cons.injEq] at this
      exact absurd this.2.symm (by simp)
  · cases c' with
    | nil =>
      rw [List.append_nil] at hc1
      simp only [List.nil_append] at hc2
      have ham : a = m ∧ o2 = [] := by
        simp only [List.cons.injEq] at hc2
        exact ⟨hc2.1, hc2.2⟩
      rw [← hc1]
      exact hm b (ham.1 ▸ hb)
    | cons x xs =>
      simp only [List.cons_append, List.cons.injEq] at hc2
      have ho : o = o1 ++ a :: xs := by
        rw [hc1, hc2.1]
      exact hgood o1 a xs ho b hb

/-- Acyclic-case DFS postcondition: starting from a topologically sound
partial order whose grey modules (visited but not yet appended) all reach
the module being visited, the DFS keeps the order topologically sound. -/
theorem visit_good_spec (g : Graph) (hacy : Acyclic g) :
    ∀ fuel : Nat,
      (∀ (s : DfsState) (m : String), unvisited g s.visited < fuel →
        (∀ x ∈ s.order, x ∈ s.visited) →
        good_order g s.order →
        (∀ x ∈ s.visited, x ∉ s.order → Reach g x m) →
        good_order g (visit g fuel s m).order) ∧
      (∀ (s : DfsState) (ms : List String), unvisited g s.visited < fuel →
        (∀ x ∈ s.order, x ∈ s.visited) →
        good_order g s.order →
        (∀ x ∈ s.visited, x ∉ s.order → ∀ n ∈ ms, Reach g x n) →
        good_order g (visit_deps g fuel s ms).order) := by
  intro fuel
  induction fuel with
  | zero => exact ⟨fun s m h => absurd h (Nat.not_lt_zero _),
      fun s ms h => absurd h (Nat.not_lt_zero _)⟩
  | succ fuel ih =>
    have hvisit : ∀ (s : DfsState) (m : String),
        unvisited g s.visited < fuel + 1 →
        (∀ x ∈ s.order, x ∈ s.visited) →
        good_order g s.order →
        (∀ x ∈ s.visited, x ∉ s.order → Reach g x m) →
        good_order g (visit g (fuel + 1) s m).order := by
      intro s m hfuel hov hgood hgrey
      rw [visit_succ]
      by_cases hm : m ∈ s.visited
      · rw [if_pos hm]
        exact hgood
      · rw [if_neg hm]
        cases hfind : g.find? (fun p => p.1 = m) with
        | none =>
          apply good_order_append_single g s.order m hgood
          intro b hb
          have hnb : graph_nbrs g m = [] := by
            unfold graph_nbrs
            rw [hfind]
            rfl
          unfold edge at hb
          rw [hnb] at hb
          exact absurd hb (List.not_mem_nil _)
        | some p =>
          have hkey : m ∈ graph_keys g := by
            have h1 := List.find?_some hfind
            have h2 := List.mem_of_find?_eq_some hfind
            simp only [decide_eq_true_eq] at h1
            rw [← h1]
            exact List.mem_map.2 ⟨p, h2, rfl⟩
          have hnode : m ∈ graph_nodes g := mem_nodes_of_key g m hkey
          have hlt : unvisited g (m :: s.visited) < fuel :=
            lt_of_lt_of_le (unvisited_lt_cons g m s.visited hnode hm)
              (Nat.lt_succ_iff.1 hfuel)
          have hnbrs : graph_nbrs g m = p.2 := by
            unfold graph_nbrs
            rw [hfind]
            rfl
          have hedge_m : ∀ n ∈ p.2, edge g m n := by
            intro n hn
            unfold edge
            rw [hnbrs]
            exact hn
          have hgoods1 := ih.2 { s with visited := m :: s.visited } p.2 hlt
            (fun x hx => List.mem_cons_of_mem _ (hov x hx)) hgood
            (by
              intro x hxv hxo n hn
              rcases List.mem_cons.1 hxv with hxm | hxs
              · rw [hxm]
                exact Reach.single (hedge_m n hn)
              · exact Reach.trans (hgrey x hxs hxo) (Reach.single (hedge_m n hn)))
          apply good_order_append_single g _ m hgoods1
          intro b hbedge
          have hbp : b ∈ p.2 := by
            unfold edge at hbedge
            rw [hnbrs] at hbedge
            exact hbedge
          rcases (visit_spec g fuel).2 { s with visited := m :: s.visited } p.2 hlt
            with ⟨hinv, hall⟩
          have hbv : b ∈ (visit_deps g fuel
              { s with visited := m :: s.visited } p.2).visited := hall b hbp
          by_contra hbo
          rcases hinv with ⟨d0, ho0, hn0, hd0, hv0⟩
          have hbd : b ∉ d0 := by
            intro hbd
            exact hbo (by rw [ho0]; exact List.mem_append.2 (Or.inr hbd))
          have hbv' : b ∈ m :: s.visited := by
            rcases (hv0 b).1 hbv with h | h
            · exact h
            · exact absurd h hbd
          have hbso : b ∉ s.order := by
            intro hbs
            exact hbo (by rw [ho0]; exact List.mem_append.2 (Or.inl hbs))
          rcases List.mem_cons.1 hbv' with hbm | hbsv
          · exact hacy m (Reach.single (hbm ▸ hbedge))
          · exact hacy m (Reach.trans (Reach.single hbedge) (hgrey b hbsv hbso))
    refine ⟨hvisit, ?_⟩
    intro s ms
    induction ms generalizing s with
    | nil =>
      intro _ _ hgood _
      rw [visit_deps_nil]
      exact hgood
    | cons n rest ihms =>
      intro hfuel hov hgood hgrey
      rw [visit_deps_cons]
      have hgood1 := hvisit s n hfuel hov hgood
        (fun x hx hxo => hgrey x hx hxo n (List.mem_cons_self _ _))
      rcases (visit_spec g (fuel + 1)).1 s n hfuel with ⟨hinv1, _⟩
      have hsub := dfs_inv_visited_subset s _ hinv1
      rcases hinv1 with ⟨d1, ho1, hn1, hd1, hv1⟩
      apply ihms (visit g (fuel + 1) s n)
        (lt_of_le_of_lt (unvisited_le_of_subset g _ _ hsub) hfuel)
      · intro x hx
        rw [ho1] at hx
        rcases List.mem_append.1 hx with h | h
        · exact (hv1 x).2 (Or.inl (hov x h))
        · exact (hv1 x).2 (Or.inr h)
      · exact hgood1
      · intro x hxv hxo n2 hn2
        have hxs : x ∈ s.visited := by
          rcases (hv1 x).1 hxv with h | h
          · exact h
          · exact absurd (by rw [ho1]; exact List.mem_append.2 (Or.inr h)) hxo
        have hxso : x ∉ s.order := by
          intro hxs2
          exact hxo (by rw [ho1]; exact List.mem_append.2 (Or.inl hxs2))
        exact hgrey x hxs hxso n2 (List.mem_cons_of_mem _ hn2)

theorem indexOf_lt_of_mem_prefix (o1 : List String) (a : String)
    (o2 : List String) (b : String) (hnd : (o1 ++ a :: o2).Nodup)
    (hb : b ∈ o1) :
    (o1 ++ a :: o2).indexOf b < (o1 ++ a :: o2).indexOf a := by
  induction o1 with
  | nil => exact absurd hb (List.not_mem_nil _)
  | cons x rest ih =>
    simp only [List.cons_append] at hnd ⊢
    have hxnot : x ∉ rest ++ a :: o2 := (List.nodup_cons.1 hnd).1
    have hnd' : (rest ++ a :: o2).Nodup := (List.nodup_cons.1 hnd).2
    have hxa : a ≠ x := by
      intro h
      exact hxnot (h ▸ List.mem_append.2 (Or.inr (List.mem_cons_self _ _)))
    rcases List.mem_cons.1 hb with hbx | hbr
    · rw [hbx, List.indexOf_cons_self, List.indexOf_cons_ne _ (Ne.symm hxa)]
      exact Nat.succ_pos _
    · have hxb : x ≠ b := by
        intro h
        exact hxnot (h ▸ List.mem_append.2 (Or.inl hbr))
      rw [List.indexOf_cons_ne _ hxb, List.indexOf_cons_ne _ (Ne.symm hxa)]
      exact Nat.succ_lt_succ (ih hnd' hbr)

/-- C4: on an acyclic dependency graph, whenever module A depends on
module B (the graph stores an edge A to B), the migration order computed by
the depth-first visit places B strictly before A. -/
theorem c4_dependency_ordered_first :
    ∀ (g : Graph) (A B : String), Acyclic g → edge g A B → A ∈ graph_keys g →
      (calculate_migration_order g).indexOf B <
        (calculate_migration_order g).indexOf A := by
  intro g A B hacy hedge hA
  unfold calculate_migration_order
  have hfuel : unvisited g ([] : List String) < (graph_nodes g).length + 1 := by
    unfold unvisited
    have hfe : (graph_nodes g).filter (fun x => decide (x ∉ ([] : List String))) =
        graph_nodes g := by
      rw [List.filter_eq_self]
      intro a _
      simp
    rw [hfe]
    exact Nat.lt_succ_self _
  rcases (visit_spec g ((graph_nodes g).length + 1)).2
      { visited := [], order := [] } (graph_keys g) hfuel with ⟨hinv, hall⟩
  have hgood := (visit_good_spec g hacy ((graph_nodes g).length + 1)).2
    { visited := [], order := [] } (graph_keys g) hfuel
    (fun x hx => absurd hx (List.not_mem_nil _))
    (good_order_nil g)
    (fun x hx => absurd hx (List.not_mem_nil _))
  rcases hinv with ⟨d, ho, hnd, _, hv⟩
  have hAv := hall A hA
  rw [hv A] at hAv
  have hAd : A ∈ d := by
    rcases hAv with h | h
    · exact absurd h (List.not_mem_nil _)
    · exact h
  have hAorder : A ∈ (visit_deps g ((graph_nodes g).length + 1)
      { visited := [], order := [] } (graph_keys g)).order := by
    rw [ho]
    exact List.mem_append.2 (Or.inr hAd)
  have hndorder : (visit_deps g ((graph_nodes g).length + 1)
      { visited := [], order := [] } (graph_keys g)).order.Nodup := by
    rw [ho]
    simpa using hnd
  rcases List.append_of_mem hAorder with ⟨o1, o2, hsplit⟩
  have hB : B ∈ o1 := hgood o1 A o2 hsplit B hedge
  rw [hsplit] at hndorder ⊢
  exact indexOf_lt_of_mem_prefix o1 A o2 B hndorder hB

/-- C4 witness: the theorem applied to the graph built from the single
foreign-key edge `orders_module` to `customers_module`, with acyclicity
certified by a rank function. -/
theorem c4_witness :
    edge g_orders "orders_module" "customers_module" ∧
    (calculate_migration_order g_orders).indexOf "customers_module" <
      (calculate_migration_order g_orders).indexOf "orders_module" := by
  have hacy : Acyclic g_orders := by
    apply acyclic_of_rank g_orders g_orders_rank
    intro a b h
    by_cases h1 : a = "orders_module"
    · subst h1
      have hnb : graph_nbrs g_orders "orders_module" = ["customers_module"] := by decide
      unfold edge at h
      rw [hnb] at h
      have hb : b = "customers_module" := by simpa using h
      rw [hb]
      decide
    · by_cases h2 : a = "customers_module"
      · subst h2
        have hnb : graph_nbrs g_orders "customers_module" = [] := by decide
        unfold edge at h
        rw [hnb] at h
        exact absurd h (List.not_mem_nil _)
      · have hfind : g_orders.find? (fun p => p.1 = a) = none := by
          rw [List.find?_eq_none]
          intro x hx
          have hg : g_orders =
              [("orders_module", ["customers_module"]), ("customers_module", [])] := by
            decide
          rw [hg] at hx
          rcases List.mem_cons.1 hx with hx1 | hx1
          · rw [hx1]
            simp [h1]
            intro hcontra
            exact h1 hcontra.symm
          · rw [List.mem_singleton.1 hx1]
            simp
            intro hcontra
            exact h2 hcontra.symm
        have hnb : graph_nbrs g_orders a = [] := by
          unfold graph_nbrs
          rw [hfind]
          rfl
        unfold edge at h
        rw [hnb] at h
        exact absurd h (List.not_mem_nil _)
  exact ⟨by decide, c4_dependency_ordered_first g_orders "orders_module"
    "customers_module" hacy (by decide) (by decide)⟩

end MigrationGuardian
